import Mathlib

set_option maxRecDepth 100000

/-!
Verification of the markdown-to-HTML converter in docs/create_html_pages.py.

The program is a single linear pass of regex substitutions over text
(function markdown_to_html_simple) followed by a small driver (function main)
that reads four fixed source files and writes converted HTML files.

The embedding works on List Char.  Each Python regex substitution used by the
source is one of three shapes, and each shape is modelled exactly:

* re.sub with a line-anchored pattern and MULTILINE (headers, list items):
  since the dot does not match a newline and the replacement contains no
  newline, the substitution acts independently on each newline-separated
  line; it is modelled by splitting on the newline character, rewriting each
  line, and joining back.

* re.sub with a lazy delimited pattern (bold, italic): modelled by a
  left-to-right scan that, at the first position where the delimiter occurs,
  finds the shortest non-empty newline-free inner text followed by the
  closing delimiter, rewrites it, and continues after the match; if no close
  exists the scan advances one character.

* re.sub with the greedy DOTALL list pattern: modelled by a left-to-right
  scan that, at a position where the opening list tag occurs, matches up to
  the last occurrence of the closing list tag in the rest of the whole text.

The scanners recurse on an explicit fuel initialised with the length of the
input; each step consumes at least one character, so the fuel never runs out
when started this way (the zero-fuel branch is unreachable from the public
wrappers).  Python str.strip and str.isspace are modelled over the complete
set of Unicode whitespace code points that CPython strips, so blank-line
detection and the tag-line test agree with the program on every input.
-/

namespace TarotDocs

/-- Whitespace characters stripped by Python str.strip: exactly the code
points for which Python str.isspace is true (CPython, Unicode 14): the
ASCII range 9 to 13 and 28 to 32, next line 133, no-break space 160, ogham
space mark 5760, the spaces 8192 to 8202, line separator 8232, paragraph
separator 8233, narrow no-break space 8239, medium mathematical space 8287
and ideographic space 12288. -/
def pyWS (c : Char) : Bool :=
  let n := c.toNat
  (decide (9 ≤ n) && decide (n ≤ 13)) || (decide (28 ≤ n) && decide (n ≤ 32)) ||
    n == 133 || n == 160 || n == 5760 ||
    (decide (8192 ≤ n) && decide (n ≤ 8202)) || n == 8232 || n == 8233 ||
    n == 8239 || n == 8287 || n == 12288

/-- Model of Python str.strip: drop whitespace from both ends. -/
def strip (l : List Char) : List Char :=
  ((l.dropWhile pyWS).reverse.dropWhile pyWS).reverse

/-- Model of Python line.strip().startswith(chr(60)): the first
non-whitespace character of the line is the tag opener. -/
def startsLT (l : List Char) : Bool :=
  match strip l with
  | [] => false
  | c :: _ => c = '<'

/-- Model of Python text.split on the newline character: splitting an empty
text gives one empty line, and n newline characters give n+1 lines. -/
def splitLines : List Char → List (List Char)
  | [] => [[]]
  | c :: cs =>
    if c = '\n' then [] :: splitLines cs
    else
      match splitLines cs with
      | [] => [[c]]
      | l :: ls => (c :: l) :: ls

/-- Model of Python newline.join. -/
def joinLines : List (List Char) → List Char
  | [] => []
  | [l] => l
  | l :: ls => l ++ '\n' :: joinLines ls

/-- Model of Python space.join. -/
def joinSp : List (List Char) → List Char
  | [] => []
  | [l] => l
  | l :: ls => l ++ ' ' :: joinSp ls

/-- One line of a line-anchored substitution such as re.sub of the pattern
caret, marker, dot-plus, dollar (MULTILINE): if the line starts with the
marker and at least one character follows it, wrap the remainder of the line
in the opening and closing tags, else leave the line unchanged. -/
def lineSub (marker opening closing l : List Char) : List Char :=
  if marker.isPrefixOf l && decide (marker.length < l.length) then
    opening ++ l.drop marker.length ++ closing
  else l

/-- A full line-anchored MULTILINE substitution: rewrite every line. -/
def mlSub (marker opening closing s : List Char) : List Char :=
  joinLines ((splitLines s).map (lineSub marker opening closing))

/-- Lazy search for the closing delimiter d after a non-empty inner text of
characters other than newline; returns the inner text and the remainder
after the closing delimiter. -/
def scanInner (d : List Char) : List Char → Option (List Char × List Char)
  | [] => none
  | c :: rest =>
    if c = '\n' then none
    else if d.isPrefixOf rest then some ([c], rest.drop d.length)
    else
      match scanInner d rest with
      | some (inner, after) => some (c :: inner, after)
      | none => none

/-- Fuelled scanner for the lazy delimited substitutions (bold, italic):
model of re.sub with pattern delimiter, lazy dot-plus, delimiter. -/
def subDelimF (d op cl : List Char) : Nat → List Char → List Char
  | _, [] => []
  | 0, s => s
  | fuel + 1, c :: rest =>
    if d.isPrefixOf (c :: rest) then
      match scanInner d ((c :: rest).drop d.length) with
      | some (inner, after) => op ++ inner ++ cl ++ subDelimF d op cl fuel after
      | none => c :: subDelimF d op cl fuel rest
    else c :: subDelimF d op cl fuel rest

/-- Lazy delimited substitution with adequate fuel. -/
def subDelim (d op cl s : List Char) : List Char :=
  subDelimF d op cl s.length s

/-- Index of the first occurrence of pat in s, if any. -/
def firstIdx (pat : List Char) : List Char → Option Nat
  | [] => if pat.isEmpty then some 0 else none
  | c :: rest =>
    if pat.isPrefixOf (c :: rest) then some 0
    else (firstIdx pat rest).map (· + 1)

/-- Index of the last occurrence of pat in s, if any. -/
def lastIdx (pat : List Char) : List Char → Option Nat
  | [] => if pat.isEmpty then some 0 else none
  | c :: rest =>
    match lastIdx pat rest with
    | some j => some (j + 1)
    | none => if pat.isPrefixOf (c :: rest) then some 0 else none

/-- Decides whether pat occurs somewhere in s. -/
def hasSub (pat : List Char) : List Char → Bool
  | [] => pat.isEmpty
  | c :: rest => pat.isPrefixOf (c :: rest) || hasSub pat rest

/-- Number of start positions at which pat occurs in s. -/
def countOcc (pat : List Char) : List Char → Nat
  | [] => 0
  | c :: rest => (if pat.isPrefixOf (c :: rest) then 1 else 0) + countOcc pat rest

/-- Fuelled scanner for the list-wrapping step: model of re.sub with the
greedy DOTALL pattern opening list-item tag, dot-star, closing list-item
tag.  At a position where the opening tag occurs, the greedy dot-star
matches up to the last occurrence of the closing tag in the whole rest of
the text; when no closing tag follows, the match attempt fails and the scan
advances one character. -/
def subUlF : Nat → List Char → List Char
  | _, [] => []
  | 0, s => s
  | fuel + 1, c :: rest =>
    if ("<li>".data).isPrefixOf (c :: rest) then
      match lastIdx ("</li>".data) ((c :: rest).drop 4) with
      | some j =>
          "<ul>".data ++ (c :: rest).take (4 + j + 5) ++ "</ul>".data ++
            subUlF fuel ((c :: rest).drop (4 + j + 5))
      | none => c :: subUlF fuel rest
    else c :: subUlF fuel rest

/-- List wrapping with adequate fuel. -/
def subUl (s : List Char) : List Char := subUlF s.length s

/-- A flushed paragraph: the buffered stripped lines joined by single spaces
inside one paragraph tag. -/
def pWrap (buf : List (List Char)) : List Char :=
  "<p>".data ++ joinSp buf ++ "</p>".data

/-- Paragraph assembly loop of the source, lines plus current buffer: a
blank line flushes the buffer; a line whose stripped form does not start
with the tag opener is stripped and buffered; any other line flushes the
buffer and is emitted verbatim; at the end the buffer is flushed. -/
def paraLoop : List (List Char) → List (List Char) → List (List Char)
  | [], buf => if buf.isEmpty then [] else [pWrap buf]
  | l :: ls, buf =>
    if (strip l).isEmpty then
      (if buf.isEmpty then [] else [pWrap buf]) ++ paraLoop ls []
    else if !startsLT l then paraLoop ls (buf ++ [strip l])
    else (if buf.isEmpty then [] else [pWrap buf]) ++ l :: paraLoop ls []

/-- Head of the fixed HTML shell up to the interpolated title. -/
def shellPre1 : List Char :=
  "<!DOCTYPE html>\n<html lang=\"en\">\n<head>\n    <meta charset=\"UTF-8\">\n    <meta name=\"viewport\" content=\"width=device-width, initial-scale=1.0\">\n    <title>".data

/-- Rest of the fixed HTML shell after the interpolated title, up to the
point where the assembled body is appended. -/
def shellPre2 : List Char :=
  " - Tarot Deck App</title>\n    <link rel=\"stylesheet\" href=\"style.css\">\n</head>\n<body>\n    <div class=\"container\">\n        <a href=\"index.html\" class=\"back-link\">← Back to Legal Documents</a>\n".data

/-- Closing part of the fixed HTML shell, appended after the body. -/
def shellSuf : List Char :=
  "\n        <footer>\n            <p>Tarot Deck App © 2026</p>\n        </footer>\n    </div>\n</body>\n</html>\n".data

/-- Opening part of the shell with the title interpolated. -/
def shellPre (title : List Char) : List Char := shellPre1 ++ title ++ shellPre2

/-- Body computation of the transformer: ordered substitutions for the
three header levels, bold, italic, list items and list wrapping, then
paragraph assembly joined by newlines. -/
def bodyOf (md_content : List Char) : List Char :=
  let c1 := mlSub "# ".data "<h1>".data "</h1>".data md_content
  let c2 := mlSub "## ".data "<h2>".data "</h2>".data c1
  let c3 := mlSub "### ".data "<h3>".data "</h3>".data c2
  let c4 := subDelim "**".data "<strong>".data "</strong>".data c3
  let c5 := subDelim "*".data "<em>".data "</em>".data c4
  let c6 := mlSub "- ".data "<li>".data "</li>".data c5
  let c7 := subUl c6
  joinLines (paraLoop (splitLines c7) [])

/-- The transformer of the source: the assembled body inside the fixed
shell. -/
def markdown_to_html_simple (md_content title : List Char) : List Char :=
  shellPre title ++ bodyOf md_content ++ shellSuf

/-- Fuelled model of Python str.replace: replace every non-overlapping
occurrence of pat, scanning left to right (all patterns used are
non-empty). -/
def replaceAllF (pat rep : List Char) : Nat → List Char → List Char
  | _, [] => []
  | 0, s => s
  | fuel + 1, c :: rest =>
    if pat.isPrefixOf (c :: rest) then
      rep ++ replaceAllF pat rep fuel ((c :: rest).drop pat.length)
    else c :: replaceAllF pat rep fuel rest

/-- Python str.replace with adequate fuel. -/
def replaceAll (pat rep s : List Char) : List Char :=
  replaceAllF pat rep s.length s

/-- Output filename computation of the driver: the chained replace calls of
the source, in their order. -/
def html_filename (filename : List Char) : List Char :=
  replaceAll "COPYRIGHT".data "COPYRIGHT.html".data
    (replaceAll "LICENSE".data "LICENSE.html".data
      (replaceAll ".md".data ".html".data filename))

/-- The fixed list of source pairs of the driver. -/
def files_to_convert : List (List Char × List Char) :=
  [("PRIVACY_POLICY.md".data, "Privacy Policy".data),
   ("TERMS_OF_SERVICE.md".data, "Terms of Service".data),
   ("LICENSE".data, "License".data),
   ("COPYRIGHT".data, "Copyright".data)]

/-- One iteration of the driver loop, file I/O abstracted: the filesystem is
a presence predicate and a contents function; the result is the console line
printed and the optional written file (output name and contents). -/
def convertOne (present : List Char → Bool) (contents : List Char → List Char)
    (p : List Char × List Char) : List Char × Option (List Char × List Char) :=
  if present p.1 then
    ("Converted ".data ++ p.1 ++ " to ".data ++ html_filename p.1,
      some (html_filename p.1, markdown_to_html_simple (contents p.1) p.2))
  else ("Warning: ".data ++ p.1 ++ " not found".data, none)

/-- Observable outcome of one driver run. -/
structure DriverResult where
  console : List (List Char)
  written : List (List Char × List Char)
  docsDirCreated : Bool

/-- The driver main, file I/O abstracted: the docs directory is created
unconditionally, then every pair of files_to_convert is processed in
order. -/
def mainRun (present : List Char → Bool) (contents : List Char → List Char) :
    DriverResult where
  console := files_to_convert.map fun p => (convertOne present contents p).1
  written := files_to_convert.filterMap fun p => (convertOne present contents p).2
  docsDirCreated := true

/-- Specification-side definition for the paragraph claims, following the
words of the specification: the maximal runs of consecutive non-blank lines
(a line is blank when its stripped form is empty). -/
def groupRuns : List (List Char) → List (List (List Char))
  | [] => []
  | l :: ls =>
    if (strip l).isEmpty then groupRuns ls
    else
      match ls with
      | [] => [[l]]
      | l2 :: _ =>
        if (strip l2).isEmpty then [l] :: groupRuns ls
        else
          match groupRuns ls with
          | [] => [[l]]
          | r :: rs => (l :: r) :: rs

/-- Bridging accumulator between the paragraph loop and the maximal runs:
the runs of the remaining lines with a partial run already buffered. -/
def runsWithBuf : List (List Char) → List (List Char) → List (List (List Char))
  | [], buf => if buf.isEmpty then [] else [buf]
  | l :: ls, buf =>
    if (strip l).isEmpty then
      (if buf.isEmpty then [] else [buf]) ++ runsWithBuf ls []
    else runsWithBuf ls (buf ++ [strip l])

/-- Unfolding equation of the transformer. -/
theorem markdown_to_html_simple_eq (md_content title : List Char) :
    markdown_to_html_simple md_content title =
      shellPre title ++ bodyOf md_content ++ shellSuf := rfl

/-- C8: for each of the four fixed source pairs, the driver computes the
output filename by replacing the .md suffix with .html when the filename has
one and by appending .html otherwise, giving PRIVACY_POLICY.html,
TERMS_OF_SERVICE.html, LICENSE.html and COPYRIGHT.html. -/
theorem c8_output_filenames :
    files_to_convert.map (fun p => html_filename p.1) =
      ["PRIVACY_POLICY.html".data, "TERMS_OF_SERVICE.html".data,
       "LICENSE.html".data, "COPYRIGHT.html".data] := by decide

/-- C10: a line consisting of exactly the marker with nothing after the
trailing space is left unchanged by the header and list-item substitutions
(the patterns require at least one character after the marker), and in the
full transformer such a line flows into paragraph assembly as ordinary
text. -/
theorem c10_bare_markers_unchanged :
    lineSub "# ".data "<h1>".data "</h1>".data "# ".data = "# ".data ∧
    lineSub "## ".data "<h2>".data "</h2>".data "## ".data = "## ".data ∧
    lineSub "### ".data "<h3>".data "</h3>".data "### ".data = "### ".data ∧
    lineSub "- ".data "<li>".data "</li>".data "- ".data = "- ".data ∧
    markdown_to_html_simple "# ".data "T".data =
      shellPre "T".data ++ "<p>#</p>".data ++ shellSuf ∧
    markdown_to_html_simple "## ".data "T".data =
      shellPre "T".data ++ "<p>##</p>".data ++ shellSuf ∧
    markdown_to_html_simple "### ".data "T".data =
      shellPre "T".data ++ "<p>###</p>".data ++ shellSuf ∧
    markdown_to_html_simple "- ".data "T".data =
      shellPre "T".data ++ "<p>-</p>".data ++ shellSuf := by
  refine ⟨?_, ?_, ?_, ?_, ?_, ?_, ?_, ?_⟩ <;> rfl

/-- C4: transforming the two-item list input produces two list-item tags
wrapping a and b, both enclosed in a single unordered-list tag (the output
contains exactly one opening and one closing unordered-list tag, and both
list items lie between them). -/
theorem c4_two_items_single_ul :
    markdown_to_html_simple "- a\n- b".data "T".data =
      shellPre "T".data ++ "<ul><li>a</li>\n<li>b</li></ul>".data ++ shellSuf ∧
    countOcc "<ul>".data
      (shellPre "T".data ++ "<ul><li>a</li>\n<li>b</li></ul>".data ++ shellSuf) = 1 ∧
    countOcc "</ul>".data
      (shellPre "T".data ++ "<ul><li>a</li>\n<li>b</li></ul>".data ++ shellSuf) = 1 ∧
    countOcc "<li>".data
      (shellPre "T".data ++ "<ul><li>a</li>\n<li>b</li></ul>".data ++ shellSuf) = 2 ∧
    countOcc "</li>".data
      (shellPre "T".data ++ "<ul><li>a</li>\n<li>b</li></ul>".data ++ shellSuf) = 2 := by
  refine ⟨rfl, ?_, ?_, ?_, ?_⟩ <;> decide

/-- C1 is false on the code: for the input with a bold and an italic span,
the converted line begins with an HTML tag, so paragraph assembly emits it
verbatim instead of wrapping it in a paragraph tag.  In the output the
unique occurrence of the strong tag starts at index 345 while the unique
occurrence of an opening paragraph tag (the footer paragraph of the shell)
starts at index 416, so no paragraph tag opens before the strong tag and
the three parts cannot lie inside one paragraph element. -/
theorem c1_counterexample :
    markdown_to_html_simple "**bold** and *italic*".data "T".data =
      shellPre "T".data ++ "<strong>bold</strong> and <em>italic</em>".data ++ shellSuf ∧
    firstIdx "<strong>".data
      (shellPre "T".data ++ "<strong>bold</strong> and <em>italic</em>".data ++ shellSuf) =
      some 345 ∧
    firstIdx "<p>".data
      (shellPre "T".data ++ "<strong>bold</strong> and <em>italic</em>".data ++ shellSuf) =
      some 416 ∧
    countOcc "<strong>".data
      (shellPre "T".data ++ "<strong>bold</strong> and <em>italic</em>".data ++ shellSuf) = 1 ∧
    countOcc "<p>".data
      (shellPre "T".data ++ "<strong>bold</strong> and <em>italic</em>".data ++ shellSuf) = 1 := by
  refine ⟨rfl, ?_, ?_, ?_, ?_⟩ <;> decide

/-- C1 amended: the output contains a strong-emphasis tag wrapping exactly
bold and an emphasis tag wrapping exactly italic, with the literal word and
between the two tags, but the converted line is emitted into the body
verbatim rather than being wrapped in a paragraph tag. -/
theorem c1_bold_italic_verbatim :
    markdown_to_html_simple "**bold** and *italic*".data "T".data =
      shellPre "T".data ++ "<strong>bold</strong> and <em>italic</em>".data ++ shellSuf ∧
    hasSub "<strong>bold</strong> and <em>italic</em>".data
      (shellPre "T".data ++ "<strong>bold</strong> and <em>italic</em>".data ++ shellSuf) =
      true := by
  exact ⟨rfl, by decide⟩

/-- C3 is false on the code at the input consisting of the line a-space,
then a line with an inline complete list-item tag: the paragraph lines are
stripped before joining (so the trailing space of the first line is lost)
and the greedy list-wrapping step inserts an unordered-list tag around the
inline list-item tag, so the output does not contain the original text
joined by single spaces inside a paragraph tag under either reading. -/
theorem c3_counterexample :
    markdown_to_html_simple "a \nx <li>q</li>".data "T".data =
      shellPre "T".data ++ "<p>a x <ul><li>q</li></ul></p>".data ++ shellSuf ∧
    hasSub "<p>a  x <li>q</li></p>".data
      (shellPre "T".data ++ "<p>a x <ul><li>q</li></ul></p>".data ++ shellSuf) = false ∧
    hasSub "<p>a x <li>q</li></p>".data
      (shellPre "T".data ++ "<p>a x <ul><li>q</li></ul></p>".data ++ shellSuf) = false := by
  refine ⟨rfl, ?_, ?_⟩ <;> decide

/-- C9: during paragraph assembly, a line whose first non-whitespace
character is the tag opener first flushes any buffered paragraph and is then
emitted verbatim in its original unstripped form, never wrapped in a
paragraph tag. -/
theorem c9_html_line_verbatim (l : List Char) (ls buf : List (List Char))
    (h : startsLT l = true) :
    paraLoop (l :: ls) buf =
      (if buf.isEmpty then [] else [pWrap buf]) ++ l :: paraLoop ls [] := by
  have hne : (strip l).isEmpty = false := by
    unfold startsLT at h
    cases hs : strip l with
    | nil => rw [hs] at h; cases h
    | cons c cs => simp
  simp [paraLoop, hne, h]

/-- Witness for C9 at a concrete input: a line preceded by a no-break space
(stripped by Python although outside ASCII) and a non-empty buffer; the
line is emitted unstripped and unwrapped. -/
theorem c9_html_line_verbatim_witness :
    paraLoop ["\u00A0<x>".data] ["a".data] = [pWrap ["a".data], "\u00A0<x>".data] := by
  have h := c9_html_line_verbatim "\u00A0<x>".data [] ["a".data] (by decide)
  rw [h]; rfl

/-- C5: the transformer is total: for every content and title it returns a
string, always non-empty and always of the fixed shell shape. -/
theorem c5_transform_total (content title : List Char) :
    markdown_to_html_simple content title ≠ [] ∧
    ∃ b, markdown_to_html_simple content title = shellPre title ++ b ++ shellSuf := by
  refine ⟨?_, bodyOf content, rfl⟩
  intro h
  have hlen := congrArg List.length h
  simp only [markdown_to_html_simple, shellPre, List.length_append, List.length_nil] at hlen
  have h1 : 0 < shellPre1.length := by decide
  omega

/-- C6: for every content and title, the output contains the literal footer
text and the back-navigation link targeting index.html. -/
theorem c6_footer_and_backlink (content title : List Char) :
    "Tarot Deck App © 2026".data <:+: markdown_to_html_simple content title ∧
    "<a href=\"index.html\" class=\"back-link\">".data <:+:
      markdown_to_html_simple content title := by
  constructor
  · refine ⟨shellPre title ++ bodyOf content ++ "\n        <footer>\n            <p>".data,
      "</p>\n        </footer>\n    </div>\n</body>\n</html>\n".data, ?_⟩
    have hs : "\n        <footer>\n            <p>".data ++
        ("Tarot Deck App © 2026".data ++
          "</p>\n        </footer>\n    </div>\n</body>\n</html>\n".data) = shellSuf := by
      decide
    rw [markdown_to_html_simple_eq, ← hs]
    simp [List.append_assoc]
  · refine ⟨shellPre1 ++ title ++ " - Tarot Deck App</title>\n    <link rel=\"stylesheet\" href=\"style.css\">\n</head>\n<body>\n    <div class=\"container\">\n        ".data,
      "← Back to Legal Documents</a>\n".data ++ bodyOf content ++ shellSuf, ?_⟩
    have hs : " - Tarot Deck App</title>\n    <link rel=\"stylesheet\" href=\"style.css\">\n</head>\n<body>\n    <div class=\"container\">\n        ".data ++
        ("<a href=\"index.html\" class=\"back-link\">".data ++
          "← Back to Legal Documents</a>\n".data) = shellPre2 := by
      decide
    rw [markdown_to_html_simple_eq, shellPre, ← hs]
    simp [List.append_assoc]

/-- A non-empty pattern has no occurrence in the empty text. -/
theorem firstIdx_nil_of_ne {pat : List Char} (hp : pat ≠ []) :
    firstIdx pat [] = none := by
  cases pat with
  | nil => exact absurd rfl hp
  | cons a l => rfl

/-- A non-empty pattern has no last occurrence in the empty text. -/
theorem lastIdx_nil_of_ne {pat : List Char} (hp : pat ≠ []) :
    lastIdx pat [] = none := by
  cases pat with
  | nil => exact absurd rfl hp
  | cons a l => rfl

/-- A first occurrence at index zero is an occurrence at the head. -/
theorem firstIdx_zero {pat s : List Char} (h : firstIdx pat s = some 0) :
    pat.isPrefixOf s = true := by
  cases s with
  | nil =>
    cases pat with
    | nil => rfl
    | cons a l => cases h
  | cons c rest =>
    cases hb : pat.isPrefixOf (c :: rest) with
    | true => rfl
    | false =>
      exfalso
      simp only [firstIdx, hb, Bool.false_eq_true, if_false] at h
      cases hfi : firstIdx pat rest with
      | none => rw [hfi] at h; cases h
      | some k => rw [hfi] at h; simp at h

/-- A first occurrence at a successor index means no occurrence at the head
and a first occurrence one step earlier in the tail. -/
theorem firstIdx_succ {pat : List Char} {c : Char} {rest : List Char} {k : Nat}
    (h : firstIdx pat (c :: rest) = some (k + 1)) :
    pat.isPrefixOf (c :: rest) = false ∧ firstIdx pat rest = some k := by
  cases hb : pat.isPrefixOf (c :: rest) with
  | true => simp only [firstIdx, hb, if_true] at h; cases h
  | false =>
    refine ⟨rfl, ?_⟩
    simp only [firstIdx, hb, Bool.false_eq_true, if_false] at h
    cases hfi : firstIdx pat rest with
    | none => rw [hfi] at h; cases h
    | some j => rw [hfi] at h; simp at h; rw [h]

/-- A last occurrence at a successor index restricts to the tail. -/
theorem lastIdx_succ {pat : List Char} {c : Char} {rest : List Char} {r : Nat}
    (h : lastIdx pat (c :: rest) = some (r + 1)) :
    lastIdx pat rest = some r := by
  simp only [lastIdx] at h
  cases hl : lastIdx pat rest with
  | some j => rw [hl] at h; simp at h; simp [h]
  | none =>
    rw [hl] at h
    cases hb : pat.isPrefixOf (c :: rest) with
    | true => rw [hb] at h; simp at h
    | false => rw [hb] at h; simp at h

/-- A last occurrence at index zero means the tail has none and the pattern
occurs at the head. -/
theorem lastIdx_cons_zero {pat : List Char} {c : Char} {rest : List Char}
    (h : lastIdx pat (c :: rest) = some 0) :
    lastIdx pat rest = none ∧ pat.isPrefixOf (c :: rest) = true := by
  simp only [lastIdx] at h
  cases hl : lastIdx pat rest with
  | some j => rw [hl] at h; simp at h
  | none =>
    rw [hl] at h
    cases hb : pat.isPrefixOf (c :: rest) with
    | true => exact ⟨rfl, rfl⟩
    | false => rw [hb] at h; simp at h

/-- When there is no last occurrence, the tail has none and the pattern
does not occur at the head. -/
theorem lastIdx_cons_none {pat : List Char} {c : Char} {rest : List Char}
    (h : lastIdx pat (c :: rest) = none) :
    lastIdx pat rest = none ∧ pat.isPrefixOf (c :: rest) = false := by
  simp only [lastIdx] at h
  cases hl : lastIdx pat rest with
  | some j => rw [hl] at h; cases h
  | none =>
    rw [hl] at h
    cases hb : pat.isPrefixOf (c :: rest) with
    | true => rw [hb] at h; simp at h
    | false => exact ⟨rfl, rfl⟩

/-- Dropping k characters in front of the last occurrence shifts its index
by k. -/
theorem lastIdx_drop {pat : List Char} (hp : pat ≠ []) :
    ∀ (k : Nat) (s : List Char) (r : Nat), lastIdx pat s = some r → k ≤ r →
      lastIdx pat (s.drop k) = some (r - k) := by
  intro k
  induction k with
  | zero => intro s r h _; simp only [List.drop_zero, Nat.sub_zero]; exact h
  | succ k ih =>
    intro s r h hk
    cases s with
    | nil => rw [lastIdx_nil_of_ne hp] at h; cases h
    | cons c rest =>
      obtain ⟨r', rfl⟩ : ∃ r', r = r' + 1 := ⟨r - 1, by omega⟩
      have h2 := lastIdx_succ h
      have h3 := ih rest r' h2 (by omega)
      simpa [Nat.succ_sub_succ] using h3

/-- Dropping characters preserves the absence of occurrences. -/
theorem lastIdx_none_drop {pat : List Char} :
    ∀ (k : Nat) (s : List Char), lastIdx pat s = none →
      lastIdx pat (s.drop k) = none := by
  intro k
  induction k with
  | zero => intro s h; simpa using h
  | succ k ih =>
    intro s h
    cases s with
    | nil => simpa using h
    | cons c rest => simpa using ih rest (lastIdx_cons_none h).1

/-- Beyond the last occurrence there is no further occurrence. -/
theorem lastIdx_drop_after {pat : List Char} (hp : pat ≠ []) :
    ∀ (s : List Char) (r : Nat), lastIdx pat s = some r →
      lastIdx pat (s.drop (r + 1)) = none := by
  intro s
  induction s with
  | nil => intro r h; rw [lastIdx_nil_of_ne hp] at h; cases h
  | cons c rest ih =>
    intro r h
    cases r with
    | zero => simpa using (lastIdx_cons_zero h).1
    | succ r' => simpa using ih r' (lastIdx_succ h)

/-- The list-wrapping scan leaves a text without any closing list-item tag
unchanged. -/
theorem subUlF_id_of_no_close : ∀ (fuel : Nat) (s : List Char),
    lastIdx "</li>".data s = none → subUlF fuel s = s := by
  intro fuel
  induction fuel with
  | zero => intro s h; cases s <;> rfl
  | succ fuel ih =>
    intro s h
    cases s with
    | nil => rfl
    | cons c rest =>
      have h2 := lastIdx_cons_none h
      cases hpre : ("<li>".data).isPrefixOf (c :: rest) with
      | true =>
        have hid : lastIdx "</li>".data (List.drop 3 rest) = none := by
          have h6 := lastIdx_none_drop 4 (c :: rest) h
          simpa using h6
        simp [subUlF, hpre, hid, ih rest h2.1]
      | false => simp [subUlF, hpre, ih rest h2.1]

/-- The list-wrapping scan leaves a text without any opening list-item tag
unchanged. -/
theorem subUlF_id_of_no_open : ∀ (fuel : Nat) (s : List Char),
    hasSub "<li>".data s = false → subUlF fuel s = s := by
  intro fuel
  induction fuel with
  | zero => intro s h; cases s <;> rfl
  | succ fuel ih =>
    intro s h
    cases s with
    | nil => rfl
    | cons c rest =>
      simp only [hasSub, Bool.or_eq_false_iff] at h
      simp [subUlF, h.1, ih rest h.2]

/-- Core of C2: with adequate fuel, the list-wrapping scan wraps the span
from the first opening list-item tag to the end of the last closing
list-item tag in one unordered-list tag and leaves everything else
unchanged. -/
theorem subUlF_wrap : ∀ (fuel : Nat) (s : List Char) (p r : Nat),
    s.length ≤ fuel →
    firstIdx "<li>".data s = some p →
    lastIdx "</li>".data s = some r →
    p + 4 ≤ r →
    subUlF fuel s =
      s.take p ++ "<ul>".data ++ (s.drop p).take (r + 5 - p) ++ "</ul>".data ++
        s.drop (r + 5) := by
  intro fuel
  induction fuel with
  | zero =>
    intro s p r hlen h1 h2 h3
    have hs : s = [] := List.length_eq_zero.mp (Nat.le_zero.mp hlen)
    subst hs
    rw [firstIdx_nil_of_ne (by decide)] at h1
    cases h1
  | succ fuel ih =>
    intro s p r hlen h1 h2 h3
    cases s with
    | nil =>
      rw [firstIdx_nil_of_ne (by decide)] at h1
      cases h1
    | cons c rest =>
      cases p with
      | zero =>
        have hpre := firstIdx_zero h1
        have hd : lastIdx "</li>".data (List.drop 3 rest) = some (r - 4) := by
          have h7 := lastIdx_drop (by decide) 4 (c :: rest) r h2 (by omega)
          simpa using h7
        have hafter : lastIdx "</li>".data (List.drop (r + 4) rest) = none := by
          have h5 := lastIdx_drop_after (by decide) _ _ h2
          have h6 := lastIdx_none_drop 4 _ h5
          rw [List.drop_drop] at h6
          have e : r + 1 + 4 = r + 4 + 1 := by omega
          rw [e, List.drop_succ_cons] at h6
          exact h6
        have e4 : 4 + (r - 4) + 5 = r + 5 := by omega
        simp [subUlF, hpre, hd, e4, subUlF_id_of_no_close fuel _ hafter]
      | succ q =>
        obtain ⟨hnp, h1'⟩ := firstIdx_succ h1
        obtain ⟨r', rfl⟩ : ∃ r', r = r' + 1 := ⟨r - 1, by omega⟩
        have h2' := lastIdx_succ h2
        have hlen' : rest.length ≤ fuel := by
          simp only [List.length_cons] at hlen; omega
        have ihh := ih rest q r' hlen' h1' h2' (by omega)
        have e6 : r' + 1 + 5 - (q + 1) = r' + 5 - q := by omega
        have e5 : r' + 1 + 5 = r' + 5 + 1 := by omega
        rw [e6, e5, List.drop_succ_cons, List.take_succ_cons, List.drop_succ_cons]
        simp [subUlF, hnp, ihh]

/-- C2: whenever the text after list-item conversion contains a complete
list-item tag, the list-wrapping step performs a single greedy match
crossing newlines from the first opening list-item tag (index p) to the
last closing list-item tag (starting at index r) and wraps that entire
span, including any intervening non-list content, in exactly one
unordered-list tag, leaving the prefix before p and the suffix after the
span unchanged. -/
theorem c2_greedy_single_ul_wrap (s : List Char) (p r : Nat)
    (h1 : firstIdx "<li>".data s = some p)
    (h2 : lastIdx "</li>".data s = some r)
    (h3 : p + 4 ≤ r) :
    subUl s =
      s.take p ++ "<ul>".data ++ (s.drop p).take (r + 5 - p) ++ "</ul>".data ++
        s.drop (r + 5) :=
  subUlF_wrap s.length s p r (le_refl _) h1 h2 h3

/-- Witness for C2 at a concrete input: two list blocks separated by a
non-list line are merged into a single unordered list. -/
theorem c2_greedy_single_ul_wrap_witness :
    subUl "<li>a</li>\nMID\n<li>b</li>".data =
      "<ul><li>a</li>\nMID\n<li>b</li></ul>".data := by
  have h := c2_greedy_single_ul_wrap "<li>a</li>\nMID\n<li>b</li>".data 0 20
    (by decide) (by decide) (by decide)
  rw [h]; rfl

/-- Joining a split with a leading cons peels one character. -/
theorem joinLines_cons_cons (c : Char) (l : List Char) (ls : List (List Char)) :
    joinLines ((c :: l) :: ls) = c :: joinLines (l :: ls) := by
  cases ls <;> simp [joinLines]

/-- Splitting never yields an empty list of lines. -/
theorem splitLines_ne_nil (s : List Char) : splitLines s ≠ [] := by
  cases s with
  | nil => simp [splitLines]
  | cons c cs =>
    simp only [splitLines]
    split
    · simp
    · split <;> simp

/-- Joining the split lines restores the text. -/
theorem joinLines_splitLines (s : List Char) : joinLines (splitLines s) = s := by
  induction s with
  | nil => rfl
  | cons c cs ih =>
    by_cases h : c = '\n'
    · subst h
      obtain ⟨l, ls, hls⟩ := List.exists_cons_of_ne_nil (splitLines_ne_nil cs)
      simp only [splitLines, if_pos rfl, hls, joinLines]
      rw [← hls, ih]
      cases ls <;> simp
    · obtain ⟨l, ls, hls⟩ := List.exists_cons_of_ne_nil (splitLines_ne_nil cs)
      simp only [splitLines, h, if_false, hls]
      rw [joinLines_cons_cons, ← hls, ih]

/-- Mapping a function that fixes every element is the identity. -/
theorem map_id_of_forall {α : Type} {f : α → α} :
    ∀ l : List α, (∀ a ∈ l, f a = a) → l.map f = l := by
  intro l
  induction l with
  | nil => intro _; rfl
  | cons a l ih =>
    intro h
    simp only [List.map_cons, h a (List.mem_cons_self a l),
      ih fun x hx => h x (List.mem_cons_of_mem a hx)]

/-- A line not starting with the marker is unchanged by the line
substitution. -/
theorem lineSub_id {marker opening closing l : List Char}
    (h : marker.isPrefixOf l = false) :
    lineSub marker opening closing l = l := by
  simp [lineSub, h]

/-- A text none of whose lines starts with the marker is unchanged by the
line-anchored substitution. -/
theorem mlSub_id {marker opening closing s : List Char}
    (h : ∀ l ∈ splitLines s, marker.isPrefixOf l = false) :
    mlSub marker opening closing s = s := by
  unfold mlSub
  rw [map_id_of_forall _ fun l hl => lineSub_id (h l hl), joinLines_splitLines]

/-- A text without any asterisk is unchanged by a delimited substitution
whose delimiter starts with an asterisk. -/
theorem subDelimF_star_id (d' op cl : List Char) :
    ∀ (fuel : Nat) (s : List Char), '*' ∉ s →
      subDelimF ('*' :: d') op cl fuel s = s := by
  intro fuel
  induction fuel with
  | zero => intro s _; cases s <;> rfl
  | succ fuel ih =>
    intro s h
    cases s with
    | nil => rfl
    | cons c rest =>
      have hc : ('*' :: d').isPrefixOf (c :: rest) = false := by
        cases hb : ('*' :: d').isPrefixOf (c :: rest) with
        | false => rfl
        | true =>
          exfalso
          simp only [List.isPrefixOf, Bool.and_eq_true, beq_iff_eq] at hb
          exact h (hb.1 ▸ List.mem_cons_self c rest)
      have hrest : '*' ∉ rest := fun hm => h (List.mem_cons_of_mem c hm)
      simp [subDelimF, hc, ih rest hrest]

/-- Bold conversion is the identity on asterisk-free text. -/
theorem subDelim_bold_id {s : List Char} (h : '*' ∉ s) :
    subDelim "**".data "<strong>".data "</strong>".data s = s := by
  have e : "**".data = '*' :: "*".data := rfl
  unfold subDelim
  rw [e]
  exact subDelimF_star_id "*".data _ _ s.length s h

/-- Italic conversion is the identity on asterisk-free text. -/
theorem subDelim_em_id {s : List Char} (h : '*' ∉ s) :
    subDelim "*".data "<em>".data "</em>".data s = s := by
  have e : "*".data = '*' :: ([] : List Char) := rfl
  unfold subDelim
  rw [e]
  exact subDelimF_star_id [] _ _ s.length s h

/-- On lines that never start with the tag opener, the paragraph loop
produces exactly the wrapped runs of the bridging accumulator. -/
theorem paraLoop_eq_runs :
    ∀ (lines buf : List (List Char)),
      (∀ l ∈ lines, startsLT l = false) →
      paraLoop lines buf = (runsWithBuf lines buf).map pWrap := by
  intro lines
  induction lines with
  | nil =>
    intro buf _
    by_cases hb : buf.isEmpty <;> simp [paraLoop, runsWithBuf, hb]
  | cons l ls ih =>
    intro buf h
    have hl := h l (List.mem_cons_self l ls)
    have hls : ∀ x ∈ ls, startsLT x = false :=
      fun x hx => h x (List.mem_cons_of_mem l hx)
    by_cases hb : (strip l).isEmpty
    · by_cases hbe : buf.isEmpty <;>
        simp [paraLoop, runsWithBuf, hb, hbe, ih [] hls]
    · simp [paraLoop, runsWithBuf, hb, hl, ih (buf ++ [strip l]) hls]

/-- Prepending already-buffered lines extends the first produced run. -/
theorem runsWithBuf_push :
    ∀ (lines b1 b2 : List (List Char)), b2 ≠ [] →
      ∃ r rs, runsWithBuf lines b2 = r :: rs ∧
        runsWithBuf lines (b1 ++ b2) = (b1 ++ r) :: rs := by
  intro lines
  induction lines with
  | nil =>
    intro b1 b2 hb2
    have h2 : b2.isEmpty = false := by simpa [List.isEmpty_iff] using hb2
    have h12 : (b1 ++ b2).isEmpty = false := by simp [List.isEmpty_iff, hb2]
    exact ⟨b2, [], by simp [runsWithBuf, h2], by simp [runsWithBuf, h12]⟩
  | cons l ls ih =>
    intro b1 b2 hb2
    by_cases hb : (strip l).isEmpty
    · have h2 : b2.isEmpty = false := by simpa [List.isEmpty_iff] using hb2
      have h12 : (b1 ++ b2).isEmpty = false := by simp [List.isEmpty_iff, hb2]
      exact ⟨b2, runsWithBuf ls [],
        by simp [runsWithBuf, hb, h2], by simp [runsWithBuf, hb, h12]⟩
    · obtain ⟨r, rs, hA, hB⟩ := ih b1 (b2 ++ [strip l]) (by simp)
      refine ⟨r, rs, ?_, ?_⟩
      · simpa [runsWithBuf, hb] using hA
      · have e : b1 ++ b2 ++ [strip l] = b1 ++ (b2 ++ [strip l]) :=
          List.append_assoc b1 b2 [strip l]
        simp only [runsWithBuf, hb, if_false]
        rw [e]
        exact hB

/-- Unfolding of the maximal-runs computation at two explicit lines. -/
theorem groupRuns_cons_cons (l l2 : List Char) (t : List (List Char)) :
    groupRuns (l :: l2 :: t) =
      if (strip l).isEmpty then groupRuns (l2 :: t)
      else if (strip l2).isEmpty then [l] :: groupRuns (l2 :: t)
      else
        match groupRuns (l2 :: t) with
        | [] => [[l]]
        | r :: rs => (l :: r) :: rs := rfl

/-- The maximal runs of a list of lines whose head is non-blank start with
a run that starts with that head line. -/
theorem groupRuns_head :
    ∀ (ls : List (List Char)) (l : List Char), (strip l).isEmpty = false →
      ∃ t rs, groupRuns (l :: ls) = (l :: t) :: rs := by
  intro ls
  induction ls with
  | nil => intro l hl; exact ⟨[], [], by simp [groupRuns, hl]⟩
  | cons l2 t ih =>
    intro l hl
    by_cases h2 : (strip l2).isEmpty
    · exact ⟨[], groupRuns (l2 :: t), by rw [groupRuns_cons_cons]; simp [hl, h2]⟩
    · have h2' : (strip l2).isEmpty = false := by simpa using h2
      obtain ⟨t', rs', hg⟩ := ih l2 h2'
      exact ⟨l2 :: t', rs', by rw [groupRuns_cons_cons, hg]; simp [hl, h2]⟩

/-- The bridging accumulator started empty computes exactly the stripped
maximal runs. -/
theorem runsWithBuf_nil_eq :
    ∀ lines : List (List Char),
      runsWithBuf lines [] = (groupRuns lines).map (List.map strip) := by
  intro lines
  induction lines with
  | nil => rfl
  | cons l ls ih =>
    by_cases hb : (strip l).isEmpty
    · simp [runsWithBuf, groupRuns, hb, ih]
    · cases ls with
      | nil => simp [runsWithBuf, groupRuns, hb]
      | cons l2 t =>
        by_cases h2 : (strip l2).isEmpty
        · have ih2 : runsWithBuf t [] = (groupRuns t).map (List.map strip) := by
            simpa [runsWithBuf, groupRuns, h2] using ih
          simp [runsWithBuf, groupRuns, hb, h2, ih2]
        · have h2' : (strip l2).isEmpty = false := by simpa using h2
          obtain ⟨t', rs', hgr⟩ := groupRuns_head t l2 h2'
          have ihh : runsWithBuf t [strip l2] =
              (strip l2 :: t'.map strip) :: rs'.map (List.map strip) := by
            have ih3 : runsWithBuf (l2 :: t) [] =
                ((l2 :: t') :: rs').map (List.map strip) := by
              rw [← hgr]; exact ih
            simpa [runsWithBuf, h2] using ih3
          obtain ⟨r, rs, hA, hB⟩ := runsWithBuf_push t [strip l] [strip l2] (by simp)
          rw [ihh] at hA
          injection hA with hA1 hA2
          have hL : runsWithBuf t [strip l, strip l2] =
              (strip l :: strip l2 :: t'.map strip) :: rs'.map (List.map strip) := by
            have e : [strip l] ++ [strip l2] = [strip l, strip l2] := rfl
            rw [← e, hB, ← hA1, ← hA2]
            simp
          have hgoal : runsWithBuf (l :: l2 :: t) [] =
              runsWithBuf t [strip l, strip l2] := by
            simp [runsWithBuf, hb, h2]
          rw [hgoal, hL, groupRuns_cons_cons, hgr]
          simp [hb, h2]

/-- C3 amended: for input text with no markdown syntax (no line starting
with a header or list marker, no asterisks, no line whose first non-blank
character is the tag opener) and containing no occurrence of an opening
list-item tag, the transformer output consists of, for each maximal run of
consecutive non-blank lines, the lines stripped of surrounding whitespace
and joined by single spaces inside exactly one paragraph tag, the
paragraphs joined by newlines and embedded in the fixed shell. -/
theorem c3_plain_text_paragraphs (content title : List Char)
    (hmd : ∀ l ∈ splitLines content,
      "# ".data.isPrefixOf l = false ∧ "## ".data.isPrefixOf l = false ∧
      "### ".data.isPrefixOf l = false ∧ "- ".data.isPrefixOf l = false ∧
      startsLT l = false)
    (hstar : '*' ∉ content)
    (hli : hasSub "<li>".data content = false) :
    markdown_to_html_simple content title =
      shellPre title ++
        joinLines ((groupRuns (splitLines content)).map fun r => pWrap (r.map strip)) ++
        shellSuf := by
  have e1 : mlSub "# ".data "<h1>".data "</h1>".data content = content :=
    mlSub_id fun l hl => (hmd l hl).1
  have e2 : mlSub "## ".data "<h2>".data "</h2>".data content = content :=
    mlSub_id fun l hl => (hmd l hl).2.1
  have e3 : mlSub "### ".data "<h3>".data "</h3>".data content = content :=
    mlSub_id fun l hl => (hmd l hl).2.2.1
  have e4 : subDelim "**".data "<strong>".data "</strong>".data content = content :=
    subDelim_bold_id hstar
  have e5 : subDelim "*".data "<em>".data "</em>".data content = content :=
    subDelim_em_id hstar
  have e6 : mlSub "- ".data "<li>".data "</li>".data content = content :=
    mlSub_id fun l hl => (hmd l hl).2.2.2.1
  have e7 : subUl content = content := subUlF_id_of_no_open content.length content hli
  have hbody : bodyOf content =
      joinLines ((groupRuns (splitLines content)).map fun r => pWrap (r.map strip)) := by
    show joinLines (paraLoop (splitLines (subUl (mlSub "- ".data "<li>".data "</li>".data
      (subDelim "*".data "<em>".data "</em>".data
        (subDelim "**".data "<strong>".data "</strong>".data
          (mlSub "### ".data "<h3>".data "</h3>".data
            (mlSub "## ".data "<h2>".data "</h2>".data
              (mlSub "# ".data "<h1>".data "</h1>".data content)))))))) []) = _
    rw [e1, e2, e3, e4, e5, e6, e7,
      paraLoop_eq_runs (splitLines content) [] fun l hl => (hmd l hl).2.2.2.2,
      runsWithBuf_nil_eq]
    simp only [List.map_map]
    rfl
  rw [markdown_to_html_simple_eq, hbody]

/-- Witness for C3 amended at a concrete input: two runs separated by a
blank line become two paragraphs. -/
theorem c3_plain_text_paragraphs_witness :
    markdown_to_html_simple "hello\nworld\n\nsecond".data "T".data =
      shellPre "T".data ++ "<p>hello world</p>\n<p>second</p>".data ++ shellSuf := by
  have h := c3_plain_text_paragraphs "hello\nworld\n\nsecond".data "T".data
    (by decide) (by decide) (by decide)
  rw [h]; rfl

/-- C7: for every subset of the four source files present on the
filesystem, the driver run completes; each absent source file produces
exactly one warning line naming that file and no written output file for
it, and when none of the four source files is present the run produces the
four warning lines, writes no file, and still creates the output
directory. -/
theorem c7_missing_sources (present : List Char → Bool)
    (contents : List Char → List Char) :
    (∀ p ∈ files_to_convert, present p.1 = false →
      ((mainRun present contents).console.count
          ("Warning: ".data ++ p.1 ++ " not found".data) = 1 ∧
        ∀ w ∈ (mainRun present contents).written, w.1 ≠ html_filename p.1)) ∧
    ((∀ p ∈ files_to_convert, present p.1 = false) →
      (mainRun present contents).console =
        ["Warning: PRIVACY_POLICY.md not found".data,
         "Warning: TERMS_OF_SERVICE.md not found".data,
         "Warning: LICENSE not found".data,
         "Warning: COPYRIGHT not found".data] ∧
      (mainRun present contents).written = [] ∧
      (mainRun present contents).docsDirCreated = true) := by
  constructor
  · intro p hp hpres
    simp only [files_to_convert, List.mem_cons, List.not_mem_nil, or_false] at hp
    rcases hp with rfl | rfl | rfl | rfl
    · cases hA : present "TERMS_OF_SERVICE.md".data <;>
        cases hB : present "LICENSE".data <;>
        cases hC : present "COPYRIGHT".data <;>
        simp [mainRun, files_to_convert, convertOne, hpres, hA, hB, hC] <;>
        decide
    · cases hA : present "PRIVACY_POLICY.md".data <;>
        cases hB : present "LICENSE".data <;>
        cases hC : present "COPYRIGHT".data <;>
        simp [mainRun, files_to_convert, convertOne, hpres, hA, hB, hC] <;>
        decide
    · cases hA : present "PRIVACY_POLICY.md".data <;>
        cases hB : present "TERMS_OF_SERVICE.md".data <;>
        cases hC : present "COPYRIGHT".data <;>
        simp [mainRun, files_to_convert, convertOne, hpres, hA, hB, hC] <;>
        decide
    · cases hA : present "PRIVACY_POLICY.md".data <;>
        cases hB : present "TERMS_OF_SERVICE.md".data <;>
        cases hC : present "LICENSE".data <;>
        simp [mainRun, files_to_convert, convertOne, hpres, hA, hB, hC] <;>
        decide
  · intro h
    have h1 := h ("PRIVACY_POLICY.md".data, "Privacy Policy".data)
      (by simp [files_to_convert])
    have h2 := h ("TERMS_OF_SERVICE.md".data, "Terms of Service".data)
      (by simp [files_to_convert])
    have h3 := h ("LICENSE".data, "License".data) (by simp [files_to_convert])
    have h4 := h ("COPYRIGHT".data, "Copyright".data) (by simp [files_to_convert])
    simp only at h1 h2 h3 h4
    refine ⟨?_, ?_, rfl⟩ <;>
      simp [mainRun, files_to_convert, convertOne, h1, h2, h3, h4]

/-- Witness for C7 at the concrete filesystem with no file present: four
warnings, nothing written, directory still created. -/
theorem c7_missing_sources_witness :
    (mainRun (fun _ => false) (fun _ => [])).console =
      ["Warning: PRIVACY_POLICY.md not found".data,
       "Warning: TERMS_OF_SERVICE.md not found".data,
       "Warning: LICENSE not found".data,
       "Warning: COPYRIGHT not found".data] ∧
    (mainRun (fun _ => false) (fun _ => [])).written = [] ∧
    (mainRun (fun _ => false) (fun _ => [])).docsDirCreated = true :=
  (c7_missing_sources (fun _ => false) (fun _ => [])).2 (fun _ _ => rfl)

end TarotDocs
